import Mathlib

/-!
Shallow embedding of the hand-rolled chunking utilities in `src/chunker.js`
(class `Chunker`): `equalSizeChunk`, `sentenceChunk`, `getChunkStats`,
`validateChunks`, together with the constructor's option merging.

Conventions of the embedding:
* a JS string is a `List Char`; a chunk collection is a `List (List Char)`;
* JS numbers that take part in arithmetic comparisons (`chunkSize`,
  `overlap`, `maxSize`, window indices) are `Int`;
* the `while` loop of `equalSizeChunk` is fuel-indexed: `none` means the
  loop has not exited within the given number of iterations, so
  `∀ fuel, … = none` states that the loop never exits;
* `options.x || d` (JS truthiness on numbers: `0` is falsy) is `jsOrInt`;
  an array operand of `||` is always truthy, hence `jsOrSeps`;
* the degenerate values produced by the source on an empty collection
  (`Math.round(0/0) = NaN`, `Math.min() = Infinity`, `Math.max() = -Infinity`)
  are modelled by `none` in `Option Nat` fields;
* `Math.round(totalLength / chunks.length)` (round half away from zero on
  non-negative values) is modelled exactly on rationals as
  `(2 * total + n) / (2 * n)` in `Nat` division.
-/

/-- JS `\s` whitespace class restricted to the ASCII whitespace characters
(space, tab, line feed, carriage return, vertical tab, form feed); the
Unicode space classes of `\s` are not modelled. -/
def isWS (c : Char) : Bool :=
  c == ' ' || c == '\t' || c == '\n' || c == '\r' || c == '\x0b' || c == '\x0c'

/-- The terminal punctuation class `[.!?]` of the sentence-splitting regex. -/
def isTermPunct (c : Char) : Bool :=
  c == '.' || c == '!' || c == '?'

/-- JS `String.prototype.trim`: drop whitespace from both ends. -/
def trimWS (l : List Char) : List Char :=
  (((l.dropWhile isWS).reverse.dropWhile isWS)).reverse

/-- One step of the scan implementing `text.split(/(?<=[.!?])\s+/)`.
State: segments emitted so far, current segment (reversed), and whether we
are inside the whitespace run of a match (greedy `\s+`).  A whitespace
character starts a match exactly when the previous character of the text
(the head of the reversed current segment) is terminal punctuation. -/
def splitStep (st : List (List Char) × List Char × Bool) (c : Char) :
    List (List Char) × List Char × Bool :=
  let segs := st.1
  let curRev := st.2.1
  let skipping := st.2.2
  if skipping && isWS c then (segs, curRev, true)
  else if isWS c && (match curRev with | p :: _ => isTermPunct p | [] => false) then
    (segs ++ [curRev.reverse], [], true)
  else (segs, c :: curRev, false)

/-- JS `text.split(/(?<=[.!?])\s+/)`: split at maximal whitespace runs whose
first character is immediately preceded by `.`, `!` or `?`.  Like the JS
split, the trailing segment is always included, so the empty text yields
`[[]]` (JS `[""]`). -/
def splitSentences (text : List Char) : List (List Char) :=
  let st := text.foldl splitStep ([], [], false)
  st.1 ++ [st.2.1.reverse]

/-- JS `String.prototype.slice` with integer arguments: negative indices
count from the end, then the window `[a, b)` is taken when non-empty. -/
def jsSlice (s : List Char) (a b : Int) : List Char :=
  let len : Int := s.length
  let a2 := if a < 0 then max (len + a) 0 else min a len
  let b2 := if b < 0 then max (len + b) 0 else min b len
  if a2 < b2 then (s.drop a2.toNat).take (b2 - a2).toNat else []

/-- Fuel-indexed model of the `while` loop of `equalSizeChunk`
(src/chunker.js:118-131):

    while (start < text.length) {
      const end = Math.min(start + chunkSize, text.length);
      chunks.push(text.slice(start, end));
      start = end - overlap;
      if (start >= text.length) break;
    }

`none` means the loop has not exited within `fuel` iterations. -/
def equalSizeLoop (text : List Char) (chunkSize overlap : Int) :
    Nat → Int → List (List Char) → Option (List (List Char))
  | 0, _, _ => none
  | fuel + 1, start, acc =>
    if start < (text.length : Int) then
      if (text.length : Int) ≤ min (start + chunkSize) (text.length : Int) - overlap then
        some (acc ++ [jsSlice text start (min (start + chunkSize) (text.length : Int))])
      else
        equalSizeLoop text chunkSize overlap fuel
          (min (start + chunkSize) (text.length : Int) - overlap)
          (acc ++ [jsSlice text start (min (start + chunkSize) (text.length : Int))])
    else some acc

/-- `Chunker.equalSizeChunk(text, chunkSize, overlap)`: run the loop from
`start = 0` with an empty accumulator. -/
def equalSizeChunk (text : List Char) (chunkSize overlap : Int) (fuel : Nat) :
    Option (List (List Char)) :=
  equalSizeLoop text chunkSize overlap fuel 0 []

/-- The per-call options object of the JS methods (only the fields the
modelled methods read).  `none` is an absent field. -/
structure ChunkerOptions where
  chunkSize : Option Int
  chunkOverlap : Option Int
  separators : Option (List (List Char))
deriving DecidableEq

/-- The state of a `Chunker` instance after construction. -/
structure Chunker where
  defaultChunkSize : Int
  defaultChunkOverlap : Int
  defaultSeparators : List (List Char)
deriving DecidableEq

/-- JS `options.x || d` for a numeric field: an absent field or a supplied
`0` (falsy) selects `d`; any other supplied value is used. -/
def jsOrInt : Option Int → Int → Int
  | none, d => d
  | some v, d => if v = 0 then d else v

/-- JS `options.separators || d`: an array operand is always truthy, so any
supplied array (even the empty one) is used. -/
def jsOrSeps : Option (List (List Char)) → List (List Char) → List (List Char)
  | none, d => d
  | some v, _ => v

/-- The `Chunker` constructor (src/chunker.js:7-11):
`this.defaultChunkSize = options.chunkSize || 1000;` etc., with hard-coded
fallbacks `1000`, `200`, `["\n\n", "\n", " ", ""]`. -/
def chunkerNew (options : ChunkerOptions) : Chunker :=
  ⟨jsOrInt options.chunkSize 1000,
   jsOrInt options.chunkOverlap 200,
   jsOrSeps options.separators [['\n', '\n'], ['\n'], [' '], []]⟩

/-- The `for (const sentence of sentences)` loop of `sentenceChunk`,
including the final `if (currentChunk) chunks.push(currentChunk.trim())`.
State: chunks emitted so far and the running chunk `cur`. -/
def sentenceLoop (size : Int) :
    List (List Char) → List (List Char) → List Char → List (List Char)
  | [], chunks, cur => if cur.isEmpty then chunks else chunks ++ [trimWS cur]
  | s :: rest, chunks, cur =>
    if ((cur ++ s).length : Int) ≤ size then
      sentenceLoop size rest chunks (cur ++ (if cur.isEmpty then [] else [' ']) ++ s)
    else
      sentenceLoop size rest (if cur.isEmpty then chunks else chunks ++ [trimWS cur]) s

/-- `Chunker.sentenceChunk(text, options)` (src/chunker.js:139-155): split
into sentences, then greedily accumulate with bound
`options.chunkSize || this.defaultChunkSize`.  The accumulation check is
`(currentChunk + sentence).length <= bound` — without the joining space —
while the accumulation itself inserts a space. -/
def Chunker.sentenceChunk (self : Chunker) (text : List Char)
    (options : ChunkerOptions) : List (List Char) :=
  sentenceLoop (jsOrInt options.chunkSize self.defaultChunkSize)
    (splitSentences text) [] []

/-- The record returned by `getChunkStats`.  `averageChunkSize = none`
models the JS `NaN` produced by `Math.round(0/0)`; `minChunkSize = none`
and `maxChunkSize = none` model `Math.min()` = `Infinity` and
`Math.max()` = `-Infinity` on an empty spread. -/
structure ChunkStats where
  totalChunks : Nat
  totalCharacters : Nat
  averageChunkSize : Option Nat
  minChunkSize : Option Nat
  maxChunkSize : Option Nat
  chunkSizes : List Nat
deriving DecidableEq

/-- JS `Math.min(...lengths)`: `none` on the empty spread (`Infinity`). -/
def listMin : List Nat → Option Nat
  | [] => none
  | x :: xs =>
    match listMin xs with
    | none => some x
    | some m => some (min x m)

/-- JS `Math.max(...lengths)`: `none` on the empty spread (`-Infinity`). -/
def listMax : List Nat → Option Nat
  | [] => none
  | x :: xs =>
    match listMax xs with
    | none => some x
    | some m => some (max x m)

/-- `Chunker.getChunkStats(chunks)` (src/chunker.js:162-174).
`lengths = chunks.map(c => c.length)`, `totalLength = lengths.reduce(+, 0)`;
`Math.round(totalLength / chunks.length)` is modelled exactly as
`(2 * totalLength + n) / (2 * n)` (`NaN`, i.e. `none`, when `n = 0`). -/
def getChunkStats (chunks : List (List Char)) : ChunkStats :=
  ⟨chunks.length,
   (chunks.map (fun c => c.length)).foldl (· + ·) 0,
   if chunks.length = 0 then none
   else some ((2 * (chunks.map (fun c => c.length)).foldl (· + ·) 0 + chunks.length) /
     (2 * chunks.length)),
   listMin (chunks.map (fun c => c.length)),
   listMax (chunks.map (fun c => c.length)),
   chunks.map (fun c => c.length)⟩

/-- The record returned by `validateChunks`. -/
structure ValidationResult where
  isValid : Bool
  totalChunks : Nat
  validChunks : Nat
  oversizedChunks : Nat
  oversizedIndices : List Int
deriving DecidableEq

/-- `Chunker.validateChunks(chunks, maxSize)` (src/chunker.js:182-195).
The JS `chunks.map((chunk, index) => …)` is modelled by mapping over
`chunks.zip (List.range chunks.length)`; the sentinel `-1` and the final
`filter(i => i !== -1)` are kept as in the source. -/
def validateChunks (chunks : List (List Char)) (maxSize : Int) : ValidationResult :=
  ⟨(chunks.filter (fun c => decide (maxSize < (c.length : Int)))).length == 0,
   chunks.length,
   (chunks.filter (fun c => decide ((c.length : Int) ≤ maxSize))).length,
   (chunks.filter (fun c => decide (maxSize < (c.length : Int)))).length,
   ((chunks.zip (List.range chunks.length)).map
       (fun p => if maxSize < (p.1.length : Int) then ((p.2 : Nat) : Int) else -1)).filter
     (fun i => i != -1)⟩

/-- A read-only array traversal (JS `Array.prototype.filter`): returns the
filtered array together with the traversed array as the callback leaves
it, element by element. -/
def jsFilterRun {α : Type} (p : α → Bool) : List α → List α × List α
  | [] => ([], [])
  | a :: l =>
    let r := jsFilterRun p l
    (if p a then a :: r.1 else r.1, a :: r.2)

/-- A read-only array traversal (JS `Array.prototype.map`): returns the
mapped array together with the traversed array. -/
def jsMapRun {α β : Type} (f : α → β) : List α → List β × List α
  | [] => ([], [])
  | a :: l =>
    let r := jsMapRun f l
    (f a :: r.1, a :: r.2)

/-- State-threading version of `validateChunks`: the chunk array is passed
through each of the source's array traversals in program order, and the
array value left after the call is returned next to the result.  Used to
state that the call does not change the input collection. -/
def validateChunksRun (chunks : List (List Char)) (maxSize : Int) :
    ValidationResult × List (List Char) :=
  let ov := jsFilterRun (fun c => decide (maxSize < (c.length : Int))) chunks
  let va := jsFilterRun (fun c => decide ((c.length : Int) ≤ maxSize)) ov.2
  let ix := jsMapRun
    (fun p => if maxSize < (p.1.length : Int) then ((p.2 : Nat) : Int) else -1)
    (va.2.zip (List.range va.2.length))
  let fl := jsFilterRun (fun i => i != -1) ix.1
  (⟨ov.1.length == 0, va.2.length, va.1.length, ov.1.length, fl.1⟩, va.2)

/-- Unfolding equation for one iteration of the `equalSizeChunk` loop. -/
theorem equalSizeLoop_succ (text : List Char) (chunkSize overlap : Int)
    (fuel : Nat) (start : Int) (acc : List (List Char)) :
    equalSizeLoop text chunkSize overlap (fuel + 1) start acc =
      if start < (text.length : Int) then
        if (text.length : Int) ≤ min (start + chunkSize) (text.length : Int) - overlap then
          some (acc ++ [jsSlice text start (min (start + chunkSize) (text.length : Int))])
        else
          equalSizeLoop text chunkSize overlap fuel
            (min (start + chunkSize) (text.length : Int) - overlap)
            (acc ++ [jsSlice text start (min (start + chunkSize) (text.length : Int))])
      else some acc := rfl

/-- Whenever the overlap is positive, the loop of `equalSizeChunk` can
never exit once it is entered: the clamped window end is at most
`text.length`, so the next start `end - overlap` stays strictly below
`text.length` and neither the `break` nor the loop condition ever fires. -/
theorem equalSizeLoop_diverges (text : List Char) (chunkSize overlap : Int)
    (hO : 0 < overlap) :
    ∀ (fuel : Nat) (start : Int) (acc : List (List Char)),
      start < (text.length : Int) →
      equalSizeLoop text chunkSize overlap fuel start acc = none := by
  intro fuel
  induction fuel with
  | zero => intro start acc _; rfl
  | succ n ih =>
    intro start acc h
    rw [equalSizeLoop_succ, if_pos h]
    have he : min (start + chunkSize) ((text.length : Int)) ≤ (text.length : Int) :=
      min_le_right _ _
    have h2 : min (start + chunkSize) ((text.length : Int)) - overlap <
        (text.length : Int) := by omega
    rw [if_neg (by omega)]
    exact ih _ _ h2

/-- With `chunkSize = 0` and `overlap = 0` on the one-character text `"a"`,
the window end is clamped to `0`, so `start` is stuck at `0` and the loop
pushes the empty slice forever. -/
theorem equalSizeLoop_stuck_zero :
    ∀ (fuel : Nat) (acc : List (List Char)),
      equalSizeLoop ("a".toList) 0 0 fuel 0 acc = none := by
  intro fuel
  induction fuel with
  | zero => intro acc; rfl
  | succ n ih => intro acc; exact ih _

/-- Sanity check of the sentence split model on the spec's scenario text. -/
theorem splitSentences_scenario2 :
    splitSentences ("A. B. C.".toList) = ["A.".toList, "B.".toList, "C.".toList] := by
  decide

/-- With no overlap the loop of `equalSizeChunk` does terminate and
partitions the text into windows of the requested size. -/
theorem equalSizeChunk_no_overlap_partitions :
    equalSizeChunk ("abcdefghij".toList) 4 0 50 =
      some ["abcd".toList, "efgh".toList, "ij".toList] := by decide

/-- The spec's scenario 5: a short text with no overlap yields one chunk. -/
theorem equalSizeChunk_scenario5 :
    equalSizeChunk ("x".toList) 5 0 50 = some ["x".toList] := by decide

/-- C1: refuted by the code — the claim asserts that for every text `T`,
every `chunkSize S > 0` and every overlap `0 ≤ O < S`, `equalSizeChunk`
terminates.  In fact for every positive overlap and every non-empty text
the loop never exits: the clamped window end is at most `text.length`, so
the next start `end - overlap` stays strictly below `text.length`.  The
theorem states that for any positive overlap the fuelled loop returns
`none` at every fuel, i.e. the call does not terminate. -/
theorem equalSizeChunk_c1_diverges (text : List Char) (chunkSize overlap : Int)
    (hO : 0 < overlap) (ht : text ≠ []) :
    ∀ fuel : Nat, equalSizeChunk text chunkSize overlap fuel = none := by
  intro fuel
  have hlen : 0 < (text.length : Int) := by
    have : text.length ≠ 0 := fun h => ht (List.length_eq_zero.mp h)
    omega
  exact equalSizeLoop_diverges text chunkSize overlap hO fuel 0 [] hlen

/-- C1 witness: the concrete valid configuration `chunkSize = 2`,
`overlap = 1` on the text `"ab"` never terminates. -/
theorem equalSizeChunk_c1_diverges_witness :
    (0 : Int) < 1 ∧ ("ab".toList ≠ []) ∧ equalSizeChunk ("ab".toList) 2 1 5 = none :=
  ⟨by decide, by decide, equalSizeChunk_c1_diverges ("ab".toList) 2 1 (by decide) (by decide) 5⟩

/-- C2: refuted by the code — no `InvalidConfigError` (or any validation)
exists in `equalSizeChunk`; an invalid configuration is accepted and can
produce a non-advancing loop.  With `chunkSize = 0` and `overlap = 0`
(so `chunkSize ≤ 0` and `overlap ≥ chunkSize`) on the text `"a"`, the
window end is clamped to `0`, `start` never advances, and the loop pushes
the empty slice forever: the fuelled run returns `none` at every fuel
instead of failing fast. -/
theorem equalSizeChunk_c2_no_guard :
    ∀ fuel : Nat, equalSizeChunk ("a".toList) 0 0 fuel = none := by
  intro fuel
  exact equalSizeLoop_stuck_zero fuel []

/-- C3: refuted by the code — on `("abcdefghij", 4, 1)` the claim expects
the four chunks `["abcd","defg","ghij","j"]`.  The code pushes those four
chunks but then never exits: after the final clamped window, `start`
returns to `9 = 10 - 1` and the tail `"j"` is re-pushed forever.  The
fuelled run returns `none` at every fuel, i.e. the call never returns. -/
theorem equalSizeChunk_c3_diverges :
    ∀ fuel : Nat, equalSizeChunk ("abcdefghij".toList) 4 1 fuel = none := by
  intro fuel
  exact equalSizeLoop_diverges ("abcdefghij".toList) 4 1 (by decide) fuel 0 [] (by decide)

/-- C5: refuted by the code — `getChunkStats` applied to the empty chunk
collection does not fail: the source has no `EmptyInputError` and returns
a record with `totalChunks = 0`, `totalCharacters = 0` and degenerate
`averageChunkSize` (JS `NaN`), `minChunkSize` (JS `Infinity`),
`maxChunkSize` (JS `-Infinity`), modelled as the absent values. -/
theorem getChunkStats_empty_returns :
    getChunkStats [] = ⟨0, 0, none, none, none, []⟩ := rfl

/-- Dropping a prefix cannot lengthen a list. -/
theorem length_dropWhile_le_self (p : Char → Bool) :
    ∀ l : List Char, (l.dropWhile p).length ≤ l.length := by
  intro l
  induction l with
  | nil => simp [List.dropWhile]
  | cons a l ih =>
    rw [List.dropWhile_cons]
    by_cases h : p a
    · simp only [h, if_true]
      exact Nat.le_trans ih (Nat.le_succ _)
    · simp [h]

/-- Trimming never lengthens a string. -/
theorem trimWS_length_le (l : List Char) : (trimWS l).length ≤ l.length := by
  unfold trimWS
  calc ((((l.dropWhile isWS).reverse.dropWhile isWS)).reverse).length
      = ((l.dropWhile isWS).reverse.dropWhile isWS).length := List.length_reverse _
    _ ≤ (l.dropWhile isWS).reverse.length := length_dropWhile_le_self _ _
    _ = (l.dropWhile isWS).length := List.length_reverse _
    _ ≤ l.length := length_dropWhile_le_self _ _

/-- Invariant of the greedy accumulation loop of `sentenceChunk`: every
emitted chunk is either within `size + 1` characters (the accumulation
check omits the joining space, so one extra character can slip in) or is
the trim of a single sentence taken from `S0`. -/
theorem sentenceLoop_bound (size : Int) (S0 : List (List Char)) :
    ∀ (sents chunks : List (List Char)) (cur : List Char),
      (∀ s ∈ sents, s ∈ S0) →
      (∀ c ∈ chunks, ((c.length : Int) ≤ size + 1) ∨ ∃ s, s ∈ S0 ∧ c = trimWS s) →
      (cur = [] ∨ ((cur.length : Int) ≤ size + 1) ∨ ∃ s, s ∈ S0 ∧ cur = s) →
      ∀ c ∈ sentenceLoop size sents chunks cur,
        ((c.length : Int) ≤ size + 1) ∨ ∃ s, s ∈ S0 ∧ c = trimWS s := by
  intro sents
  induction sents with
  | nil =>
    intro chunks cur _ hC hcur c hc
    rcases cur with _ | ⟨a, cur'⟩
    · simpa [sentenceLoop] using hC c (by simpa [sentenceLoop] using hc)
    · have hc2 : c ∈ chunks ++ [trimWS (a :: cur')] := by
        simpa [sentenceLoop] using hc
      rcases List.mem_append.mp hc2 with h | h
      · exact hC c h
      · have hceq : c = trimWS (a :: cur') := by simpa using h
        rcases hcur with h0 | hlen | ⟨s, hs, hseq⟩
        · exact absurd h0 (by simp)
        · left
          have := trimWS_length_le (a :: cur')
          subst hceq
          omega
        · right
          exact ⟨s, hs, by rw [hceq, hseq]⟩
  | cons s rest ih =>
    intro chunks cur hS hC hcur c hc
    by_cases hle : ((cur ++ s).length : Int) ≤ size
    · rw [sentenceLoop, if_pos hle] at hc
      refine ih chunks _ (fun t ht => hS t (List.mem_cons_of_mem _ ht)) hC ?_ c hc
      right; left
      rcases cur with _ | ⟨a, cur'⟩
      · simp at hle ⊢
        omega
      · simp [List.length_append] at hle ⊢
        omega
    · rw [sentenceLoop, if_neg hle] at hc
      refine ih _ s (fun t ht => hS t (List.mem_cons_of_mem _ ht)) ?_ ?_ c hc
      · intro d hd
        rcases cur with _ | ⟨a, cur'⟩
        · exact hC d (by simpa using hd)
        · have hd2 : d ∈ chunks ++ [trimWS (a :: cur')] := by simpa using hd
          rcases List.mem_append.mp hd2 with h | h
          · exact hC d h
          · have hdeq : d = trimWS (a :: cur') := by simpa using h
            rcases hcur with h0 | hlen | ⟨t, ht, hteq⟩
            · exact absurd h0 (by simp)
            · left
              have := trimWS_length_le (a :: cur')
              subst hdeq
              omega
            · right
              exact ⟨t, ht, by rw [hdeq, hteq]⟩
      · right; right
        exact ⟨s, hS s (List.mem_cons_self s rest), rfl⟩

/-- C4: counterexample — on the claim's own input the code does not return
`["A.","B.","C."]`: the accumulation check `("A." + "B.").length = 4 ≤ 4`
passes without counting the joining space, so the first two sentences are
merged into the 5-character chunk `"A. B."`. -/
theorem sentenceChunk_scenario2_refuted :
    Chunker.sentenceChunk ⟨1000, 200, []⟩ ("A. B. C.".toList) ⟨some 4, none, none⟩ ≠
      ["A.".toList, "B.".toList, "C.".toList] := by decide

/-- C4 (amended): every chunk produced by `sentenceChunk` has length at
most `chunkSize + 1` — the accumulation check omits the joining space, so
a multi-sentence chunk can exceed the bound by exactly one character —
unless it consists of a single (trimmed) sentence; and on the concrete
scenario the code returns `["A. B.", "C."]`. -/
theorem sentenceChunk_bound_amended :
    (∀ (self : Chunker) (text : List Char) (opts : ChunkerOptions) (c : List Char),
        c ∈ Chunker.sentenceChunk self text opts →
        ((c.length : Int) ≤ jsOrInt opts.chunkSize self.defaultChunkSize + 1) ∨
          ∃ s, s ∈ splitSentences text ∧ c = trimWS s) ∧
    Chunker.sentenceChunk ⟨1000, 200, []⟩ ("A. B. C.".toList) ⟨some 4, none, none⟩ =
      ["A. B.".toList, "C.".toList] := by
  constructor
  · intro self text opts c hc
    exact sentenceLoop_bound (jsOrInt opts.chunkSize self.defaultChunkSize)
      (splitSentences text) (splitSentences text) [] []
      (fun s hs => hs) (by simp) (Or.inl rfl) c hc
  · decide

/-- C4 witness: the oversized chunk `"A. B."` (5 characters against the
bound 4) is produced on the concrete scenario, and it satisfies the
amended bound `≤ chunkSize + 1`. -/
theorem sentenceChunk_bound_amended_witness :
    ("A. B.".toList ∈
      Chunker.sentenceChunk ⟨1000, 200, []⟩ ("A. B. C.".toList) ⟨some 4, none, none⟩) ∧
    ((("A. B.".toList).length : Int) ≤ jsOrInt (some 4) 1000 + 1 ∨
      ∃ s, s ∈ splitSentences ("A. B. C.".toList) ∧ "A. B.".toList = trimWS s) :=
  ⟨by decide,
   sentenceChunk_bound_amended.1 ⟨1000, 200, []⟩ ("A. B. C.".toList) ⟨some 4, none, none⟩
     ("A. B.".toList) (by decide)⟩

/-- C9: `sentenceChunk` on the empty text returns the empty chunk
collection for every instance configuration and every per-call options
object: the JS split yields the single empty sentence, the running chunk
stays empty in either branch of the accumulation, and an empty running
chunk is never pushed. -/
theorem sentenceChunk_empty (self : Chunker) (opts : ChunkerOptions) :
    Chunker.sentenceChunk self [] opts = [] := by
  unfold Chunker.sentenceChunk splitSentences
  simp only [List.foldl_nil, List.reverse_nil, List.nil_append]
  by_cases h : ((([] : List Char) ++ ([] : List Char)).length : Int) ≤
      jsOrInt opts.chunkSize self.defaultChunkSize
  · rw [sentenceLoop, if_pos h]
    simp [sentenceLoop]
  · rw [sentenceLoop, if_neg h]
    simp [sentenceLoop]

/-- The source's `reduce((sum, len) => sum + len, 0)` is the list sum. -/
theorem foldl_add_eq_sum : ∀ (l : List Nat) (a : Nat), l.foldl (· + ·) a = a + l.sum := by
  intro l
  induction l with
  | nil => intro a; simp
  | cons x xs ih =>
    intro a
    simp only [List.foldl_cons, List.sum_cons, ih]
    omega

/-- `Math.min` over a non-empty spread returns a value that bounds every
element from below. -/
theorem listMin_spec : ∀ (x : Nat) (xs : List Nat),
    ∃ m, listMin (x :: xs) = some m ∧ ∀ y ∈ x :: xs, m ≤ y := by
  intro x xs
  induction xs generalizing x with
  | nil => exact ⟨x, rfl, by simp⟩
  | cons b l ih =>
    obtain ⟨m, hm, hle⟩ := ih b
    refine ⟨min x m, ?_, ?_⟩
    · show (match listMin (b :: l) with
        | none => some x
        | some m => some (min x m)) = some (min x m)
      rw [hm]
    · intro y hy
      rcases List.mem_cons.mp hy with h | h
      · subst h; exact min_le_left _ _
      · exact Nat.le_trans (min_le_right _ _) (hle y h)

/-- `Math.max` over a non-empty spread returns a value that bounds every
element from above. -/
theorem listMax_spec : ∀ (x : Nat) (xs : List Nat),
    ∃ m, listMax (x :: xs) = some m ∧ ∀ y ∈ x :: xs, y ≤ m := by
  intro x xs
  induction xs generalizing x with
  | nil => exact ⟨x, rfl, by simp⟩
  | cons b l ih =>
    obtain ⟨m, hm, hle⟩ := ih b
    refine ⟨max x m, ?_, ?_⟩
    · show (match listMax (b :: l) with
        | none => some x
        | some m => some (max x m)) = some (max x m)
      rw [hm]
    · intro y hy
      rcases List.mem_cons.mp hy with h | h
      · subst h; exact le_max_left _ _
      · exact Nat.le_trans (hle y h) (le_max_right _ _)

/-- A lower bound on every element gives `length * bound ≤ sum`. -/
theorem mul_le_sum_of_forall_le : ∀ (l : List Nat) (m : Nat),
    (∀ x ∈ l, m ≤ x) → l.length * m ≤ l.sum := by
  intro l m
  induction l with
  | nil => intro _; simp
  | cons x xs ih =>
    intro h
    have h1 := ih (fun y hy => h y (List.mem_cons_of_mem _ hy))
    have h2 := h x (List.mem_cons_self x xs)
    simp only [List.length_cons, List.sum_cons, Nat.succ_mul]
    omega

/-- An upper bound on every element gives `sum ≤ length * bound`. -/
theorem sum_le_mul_of_forall_le : ∀ (l : List Nat) (m : Nat),
    (∀ x ∈ l, x ≤ m) → l.sum ≤ l.length * m := by
  intro l m
  induction l with
  | nil => intro _; simp
  | cons x xs ih =>
    intro h
    have h1 := ih (fun y hy => h y (List.mem_cons_of_mem _ hy))
    have h2 := h x (List.mem_cons_self x xs)
    simp only [List.length_cons, List.sum_cons, Nat.succ_mul]
    omega

/-- Rounding the mean stays between any lower and upper bound of the
summands: `mn ≤ round(T / n) ≤ mx` whenever `n * mn ≤ T ≤ n * mx`. -/
theorem roundDiv_bounds (T n mn mx : Nat) (hn : 0 < n)
    (h1 : n * mn ≤ T) (h2 : T ≤ n * mx) :
    mn ≤ (2 * T + n) / (2 * n) ∧ (2 * T + n) / (2 * n) ≤ mx := by
  constructor
  · rw [Nat.le_div_iff_mul_le (by omega : 0 < 2 * n)]
    have hq : mn * (2 * n) = 2 * (n * mn) := by ring
    omega
  · have h3 : 2 * T + n < (mx + 1) * (2 * n) := by
      have hq : (mx + 1) * (2 * n) = 2 * (n * mx) + 2 * n := by ring
      omega
    have h4 : (2 * T + n) / (2 * n) < mx + 1 :=
      (Nat.div_lt_iff_lt_mul (by omega : 0 < 2 * n)).mpr h3
    omega

/-- C7: for every non-empty chunk collection, `getChunkStats` reports the
per-chunk lengths in input order, their sum as `totalCharacters`, and an
`averageChunkSize` equal to the arithmetic mean rounded to the nearest
integer, which lies between `minChunkSize` and `maxChunkSize`. -/
theorem getChunkStats_bounds (chunks : List (List Char)) (h : chunks ≠ []) :
    (getChunkStats chunks).chunkSizes = chunks.map (fun c => c.length) ∧
    (getChunkStats chunks).totalCharacters = (chunks.map (fun c => c.length)).sum ∧
    ∃ a mn mx,
      (getChunkStats chunks).averageChunkSize = some a ∧
      (getChunkStats chunks).minChunkSize = some mn ∧
      (getChunkStats chunks).maxChunkSize = some mx ∧
      a = (2 * (chunks.map (fun c => c.length)).sum + chunks.length) /
        (2 * chunks.length) ∧
      mn ≤ a ∧ a ≤ mx := by
  rcases hl : chunks.map (fun c => c.length) with _ | ⟨x, xs⟩
  · exact absurd (List.map_eq_nil_iff.mp hl) h
  · have hlen : chunks.length = (x :: xs).length := by
      rw [← hl, List.length_map]
    have hpos : 0 < chunks.length := by rw [hlen]; simp
    obtain ⟨mn, hmn, hmnle⟩ := listMin_spec x xs
    obtain ⟨mx, hmx, hmxle⟩ := listMax_spec x xs
    have hsum : (x :: xs).foldl (· + ·) 0 = (x :: xs).sum := by
      rw [foldl_add_eq_sum]; omega
    have hlow : chunks.length * mn ≤ (x :: xs).sum := by
      rw [hlen]; exact mul_le_sum_of_forall_le _ mn hmnle
    have hhigh : (x :: xs).sum ≤ chunks.length * mx := by
      rw [hlen]; exact sum_le_mul_of_forall_le _ mx hmxle
    obtain ⟨hb1, hb2⟩ := roundDiv_bounds ((x :: xs).sum) chunks.length mn mx hpos hlow hhigh
    refine ⟨rfl, ?_, ?_⟩
    · simp only [getChunkStats, hl, hsum]
    · refine ⟨(2 * (x :: xs).sum + chunks.length) / (2 * chunks.length), mn, mx, ?_, ?_, ?_, ?_, hb1, hb2⟩
      · simp only [getChunkStats, hl, hsum, if_neg (Nat.pos_iff_ne_zero.mp hpos)]
      · simp only [getChunkStats, hl, hmn]
      · simp only [getChunkStats, hl, hmx]
      · rw [hl]

/-- C7 witness: the collection `["ab", "abcdef"]` has sizes `[2, 6]`,
total `8`, rounded mean `4`, minimum `2` and maximum `6`. -/
theorem getChunkStats_bounds_witness :
    (["ab".toList, "abcdef".toList] ≠ ([] : List (List Char))) ∧
    ((getChunkStats ["ab".toList, "abcdef".toList]).chunkSizes =
        ["ab".toList, "abcdef".toList].map (fun c => c.length) ∧
      (getChunkStats ["ab".toList, "abcdef".toList]).totalCharacters =
        (["ab".toList, "abcdef".toList].map (fun c => c.length)).sum ∧
      ∃ a mn mx,
        (getChunkStats ["ab".toList, "abcdef".toList]).averageChunkSize = some a ∧
        (getChunkStats ["ab".toList, "abcdef".toList]).minChunkSize = some mn ∧
        (getChunkStats ["ab".toList, "abcdef".toList]).maxChunkSize = some mx ∧
        a = (2 * (["ab".toList, "abcdef".toList].map (fun c => c.length)).sum +
            ["ab".toList, "abcdef".toList].length) /
          (2 * ["ab".toList, "abcdef".toList].length) ∧
        mn ≤ a ∧ a ≤ mx) :=
  ⟨by decide, getChunkStats_bounds ["ab".toList, "abcdef".toList] (by decide)⟩

/-- The sentinel encoding of `validateChunks` loses no index and keeps no
spurious one: mapping to `-1`-or-index and then filtering out `-1` equals
filtering the oversized positions first and then taking their indices. -/
theorem sentinel_map_filter (maxSize : Int) :
    ∀ l : List (List Char × Nat),
      ((l.map (fun p => if maxSize < (p.1.length : Int) then ((p.2 : Nat) : Int) else -1)).filter
          (fun i => i != -1)) =
        (l.filter (fun p => decide (maxSize < (p.1.length : Int)))).map
          (fun p => ((p.2 : Nat) : Int)) := by
  intro l
  induction l with
  | nil => rfl
  | cons p l ih =>
    by_cases h : maxSize < (p.1.length : Int)
    · have hne : ((p.2 : Nat) : Int) ≠ -1 := by omega
      simp [h, ih, hne]
    · simp [h, ih]

/-- Every chunk is counted exactly once between the two filters of
`validateChunks` (the predicates `≤` and `>` are complementary). -/
theorem filter_le_add_filter_gt (maxSize : Int) :
    ∀ chunks : List (List Char),
      (chunks.filter (fun c => decide ((c.length : Int) ≤ maxSize))).length +
        (chunks.filter (fun c => decide (maxSize < (c.length : Int)))).length =
        chunks.length := by
  intro chunks
  induction chunks with
  | nil => rfl
  | cons c l ih =>
    by_cases h : (c.length : Int) ≤ maxSize
    · have h2 : ¬ maxSize < (c.length : Int) := not_lt.mpr h
      rw [List.filter_cons, List.filter_cons, if_pos (by simp [h]), if_neg (by simp [h2])]
      simp only [List.length_cons]
      omega
    · have h2 : maxSize < (c.length : Int) := not_le.mp h
      rw [List.filter_cons, List.filter_cons, if_neg (by simp [h]), if_pos (by simp [h2])]
      simp only [List.length_cons]
      omega

/-- C6: `validateChunks` reports the collection's length, the counts of
chunks within and above the bound (which sum to the total), exactly the
0-based indices of the oversized chunks in original order, and
`isValid = true` iff there is no oversized chunk; on the concrete scenario
`validateChunks(["ab","abcdef"], 3)` it returns
`{isValid: false, totalChunks: 2, validChunks: 1, oversizedChunks: 1,
oversizedIndices: [1]}`. -/
theorem validateChunks_spec (chunks : List (List Char)) (maxSize : Int) :
    (validateChunks chunks maxSize).totalChunks = chunks.length ∧
    (validateChunks chunks maxSize).validChunks =
      chunks.countP (fun c => decide ((c.length : Int) ≤ maxSize)) ∧
    (validateChunks chunks maxSize).oversizedChunks =
      chunks.countP (fun c => decide (maxSize < (c.length : Int))) ∧
    (validateChunks chunks maxSize).validChunks +
      (validateChunks chunks maxSize).oversizedChunks = chunks.length ∧
    (validateChunks chunks maxSize).oversizedIndices =
      ((chunks.zip (List.range chunks.length)).filter
          (fun p => decide (maxSize < (p.1.length : Int)))).map
        (fun p => ((p.2 : Nat) : Int)) ∧
    ((validateChunks chunks maxSize).isValid = true ↔
      (validateChunks chunks maxSize).oversizedChunks = 0) ∧
    validateChunks ["ab".toList, "abcdef".toList] 3 = ⟨false, 2, 1, 1, [1]⟩ := by
  refine ⟨rfl, ?_, ?_, ?_, ?_, ?_, by decide⟩
  · simp only [validateChunks, List.countP_eq_length_filter]
  · simp only [validateChunks, List.countP_eq_length_filter]
  · exact filter_le_add_filter_gt maxSize chunks
  · exact sentinel_map_filter maxSize (chunks.zip (List.range chunks.length))
  · simp [validateChunks]

/-- A JS `filter` traversal returns the filtered array and leaves the
traversed array exactly as it found it. -/
theorem jsFilterRun_eq {α : Type} (p : α → Bool) :
    ∀ l : List α, jsFilterRun p l = (l.filter p, l) := by
  intro l
  induction l with
  | nil => rfl
  | cons a l ih => simp [jsFilterRun, ih, List.filter_cons]

/-- A JS `map` traversal returns the mapped array and leaves the traversed
array exactly as it found it. -/
theorem jsMapRun_eq {α β : Type} (f : α → β) :
    ∀ l : List α, jsMapRun f l = (l.map f, l) := by
  intro l
  induction l with
  | nil => rfl
  | cons a l ih => simp [jsMapRun, ih]

/-- The state-threading run of `validateChunks` computes the same record as
the pure function and hands the chunk collection back unchanged. -/
theorem validateChunksRun_eq (chunks : List (List Char)) (maxSize : Int) :
    validateChunksRun chunks maxSize = (validateChunks chunks maxSize, chunks) := by
  simp only [validateChunksRun, validateChunks, jsFilterRun_eq, jsMapRun_eq]

/-- C10: `validateChunks` is pure and idempotent — the traversed chunk
collection is returned unchanged by the call, the threaded run agrees with
the pure function, and running the validation again on the collection left
by the first call yields the identical result. -/
theorem validateChunks_pure_idempotent (chunks : List (List Char)) (maxSize : Int) :
    (validateChunksRun chunks maxSize).2 = chunks ∧
    (validateChunksRun chunks maxSize).1 = validateChunks chunks maxSize ∧
    (validateChunksRun ((validateChunksRun chunks maxSize).2) maxSize).1 =
      (validateChunksRun chunks maxSize).1 := by
  rw [validateChunksRun_eq]
  exact ⟨rfl, rfl, by rw [validateChunksRun_eq]⟩

/-- C8: counterexample — a caller-supplied `0` is not used.  At facade
construction, `new Chunker({chunkOverlap: 0})` stores the hard-coded
fallback `200`, not `0`; per-call, `sentenceChunk("A. B.", {chunkSize: 0})`
on an instance with default size `4` merges both sentences (the supplied
`0` would have kept them apart, as `0` admits no accumulation). -/
theorem config_zero_ignored_counterexample :
    (chunkerNew ⟨none, some 0, none⟩).defaultChunkOverlap = 200 ∧
    (chunkerNew ⟨none, some 0, none⟩).defaultChunkOverlap ≠ 0 ∧
    Chunker.sentenceChunk ⟨4, 200, []⟩ ("A. B.".toList) ⟨some 0, none, none⟩ =
      ["A. B.".toList] ∧
    Chunker.sentenceChunk ⟨4, 200, []⟩ ("A. B.".toList) ⟨some 0, none, none⟩ ≠
      ["A.".toList, "B.".toList] := by
  refine ⟨rfl, by decide, by decide, by decide⟩

/-- C8 (amended): the `||` merge uses a supplied field only when it is
truthy — a non-zero number is used, an absent field falls back to the
default, and a supplied `0` (falsy) also falls back to the default, both
per-call (`sentenceChunk` behaves as if the field were unspecified) and at
construction (the hard-coded fallback is stored).  Array-valued
`separators` are always truthy, so any supplied array, even the empty one,
is used. -/
theorem config_merge_amended :
    (∀ v d : Int, v ≠ 0 → jsOrInt (some v) d = v) ∧
    (∀ d : Int, jsOrInt none d = d) ∧
    (∀ d : Int, jsOrInt (some 0) d = d) ∧
    ((chunkerNew ⟨none, some 0, none⟩).defaultChunkOverlap = 200) ∧
    (∀ seps : List (List Char),
      (chunkerNew ⟨none, none, some seps⟩).defaultSeparators = seps) ∧
    (∀ (self : Chunker) (text : List Char),
      Chunker.sentenceChunk self text ⟨some 0, none, none⟩ =
        Chunker.sentenceChunk self text ⟨none, none, none⟩) := by
  refine ⟨?_, fun d => rfl, fun d => rfl, rfl, fun seps => rfl, ?_⟩
  · intro v d hv
    simp [jsOrInt, hv]
  · intro self text
    show sentenceLoop (jsOrInt (some 0) self.defaultChunkSize) (splitSentences text) [] [] =
      sentenceLoop (jsOrInt none self.defaultChunkSize) (splitSentences text) [] []
    rfl

/-- C8 witness: a non-zero supplied value is used, a supplied `0` falls
back, and the per-call behaviour with `chunkSize: 0` matches the behaviour
with no `chunkSize` at all. -/
theorem config_merge_amended_witness :
    jsOrInt (some 5) 7 = 5 ∧
    jsOrInt (some 0) 7 = 7 ∧
    Chunker.sentenceChunk ⟨4, 200, []⟩ ("A. B.".toList) ⟨some 0, none, none⟩ =
      Chunker.sentenceChunk ⟨4, 200, []⟩ ("A. B.".toList) ⟨none, none, none⟩ :=
  ⟨config_merge_amended.1 5 7 (by decide),
   config_merge_amended.2.2.1 7,
   config_merge_amended.2.2.2.2.2 ⟨4, 200, []⟩ ("A. B.".toList)⟩
